import Mathlib

/-!
Shallow embedding of `src/stock_predictor.py` (GBM stock price predictor).

Floating-point numbers are embedded as real numbers.  The ambient numpy
random generator is embedded as an explicit function `dW : ℕ → ℕ → ℝ`
giving the Gaussian increment drawn for day-row `i` and sample path `j`
(the shape-`(n_days, n_sim)` array produced by `np.random.normal` on
line 21 of the source).

  def estimate_gbm_parameters(prices):
      log_returns = np.log(prices[1:] / prices[:-1])
      sigma = np.std(log_returns) * np.sqrt(252)
      mu = np.mean(log_returns) * 252 + 0.5 * sigma**2
      return mu, sigma

  def simulate_gbm_daily(S0, mu, sigma, n_days, n_sim=1000):
      dt = 1/252
      dW = np.random.normal(0, np.sqrt(dt), (n_days, n_sim))
      W = np.cumsum(dW, axis=0)
      t = np.arange(n_days)
      S = S0 * np.exp((mu - 0.5*sigma**2)*t[:, None]/252 + sigma*W)
      return S, t

and the reduction inside `predict_stock_daily`:

  median = np.median(S, axis=1)
  lower = np.percentile(S, 2.5, axis=1)
  upper = np.percentile(S, 97.5, axis=1)

`np.std` is the population standard deviation (ddof = 0); `np.percentile`
uses linear interpolation between order statistics, and `np.median` averages
the two middle order statistics.  Neither Python function contains any
`raise` or input validation, which the `Except`-valued `..._run` wrappers
record.
-/

namespace StockPredictor

noncomputable section

/-- `np.mean` of a 1-D array. -/
def npMean (xs : List ℝ) : ℝ := xs.sum / xs.length

/-- `np.std` of a 1-D array: population standard deviation (ddof = 0). -/
def npStd (xs : List ℝ) : ℝ :=
  Real.sqrt (npMean (xs.map fun x => (x - npMean xs) ^ 2))

/-- `estimate_gbm_parameters` (source lines 11-16): log returns of consecutive
prices, `sigma = np.std(log_returns) * np.sqrt(252)`,
`mu = np.mean(log_returns) * 252 + 0.5 * sigma**2`; returns `(mu, sigma)`. -/
def estimate_gbm_parameters (prices : List ℝ) : ℝ × ℝ :=
  let log_returns := List.zipWith (fun a b => Real.log (a / b)) (prices.drop 1) prices.dropLast
  let sigma := npStd log_returns * Real.sqrt 252
  let mu := npMean log_returns * 252 + 0.5 * sigma ^ 2
  (mu, sigma)

/-- `W = np.cumsum(dW, axis=0)`: `W i j = dW 0 j + ... + dW i j`. -/
def Wcum (dW : ℕ → ℕ → ℝ) (i j : ℕ) : ℝ := ∑ k ∈ Finset.range (i + 1), dW k j

/-- Entry `(i, j)` of the grid `S = S0 * np.exp((mu - 0.5*sigma**2)*t[:, None]/252 + sigma*W)`
(source line 24), where `t = np.arange(n_days)`, so row `i` uses the drift
multiplier `i` (0-based) while `W i j` already sums `i + 1` increments. -/
def S_entry (S0 mu sigma : ℝ) (dW : ℕ → ℕ → ℝ) (i j : ℕ) : ℝ :=
  S0 * Real.exp ((mu - 0.5 * sigma ^ 2) * (i : ℝ) / 252 + sigma * Wcum dW i j)

/-- `simulate_gbm_daily` (source lines 18-25): the `(n_days × n_sim)` price grid,
row-major (row `i` is forecast day-row `i`, columns are sample paths). -/
def simulate_gbm_daily (S0 mu sigma : ℝ) (n_days n_sim : ℕ) (dW : ℕ → ℕ → ℝ) :
    List (List ℝ) :=
  (List.range n_days).map fun i => (List.range n_sim).map fun j => S_entry S0 mu sigma dW i j

/-- Sorting step used internally by `np.median` / `np.percentile`. -/
def npSort (xs : List ℝ) : List ℝ := xs.insertionSort (· ≤ ·)

/-- Linear interpolation of a sorted array at fractional position `h`
(numpy's default interpolation for percentiles): value
`a[⌊h⌋] + (h − ⌊h⌋) * (a[⌊h⌋+1] − a[⌊h⌋])`, with the upper index clamped
to the last element. -/
def interpAt (s : List ℝ) (h : ℝ) : ℝ :=
  s.getD ⌊h⌋.toNat 0 +
    (h - ⌊h⌋) * (s.getD (min (⌊h⌋.toNat + 1) (s.length - 1)) 0 - s.getD ⌊h⌋.toNat 0)

/-- `np.percentile(xs, q)` with linear interpolation: position `q/100 * (n-1)`
in the sorted array. -/
def npPercentile (q : ℝ) (xs : List ℝ) : ℝ :=
  interpAt (npSort xs) (q / 100 * ((xs.length : ℝ) - 1))

/-- `np.median(xs)`: mean of the two middle order statistics
`a[(n-1)/2]` and `a[n/2]` (integer division). -/
def npMedian (xs : List ℝ) : ℝ :=
  ((npSort xs).getD ((xs.length - 1) / 2) 0 + (npSort xs).getD (xs.length / 2) 0) / 2

/-- `median = np.median(S, axis=1)` (source line 52). -/
def bandMedian (S : List (List ℝ)) : List ℝ := S.map npMedian

/-- `lower = np.percentile(S, 2.5, axis=1)` (source line 53). -/
def bandLower (S : List (List ℝ)) : List ℝ := S.map (npPercentile 2.5)

/-- `upper = np.percentile(S, 97.5, axis=1)` (source line 54). -/
def bandUpper (S : List (List ℝ)) : List ℝ := S.map (npPercentile 97.5)

/-- The simulate-then-reduce pipeline of `predict_stock_daily`
(source lines 49-54): the ForecastBand `(median, lower, upper)`. -/
def predictBand (S0 mu sigma : ℝ) (n_days n_sim : ℕ) (dW : ℕ → ℕ → ℝ) :
    List ℝ × List ℝ × List ℝ :=
  let S := simulate_gbm_daily S0 mu sigma n_days n_sim dW
  (bandMedian S, bandLower S, bandUpper S)

/-- The spec's error taxonomy (§7). -/
inductive GBMError where
  | invalidInput : GBMError

/-- The exception behaviour of a call to `estimate_gbm_parameters`: the Python
body contains no `raise` and no validation branch, so every call returns
normally. -/
def estimate_gbm_parameters_run (prices : List ℝ) : Except GBMError (ℝ × ℝ) :=
  Except.ok (estimate_gbm_parameters prices)

/-- The exception behaviour of a call to `simulate_gbm_daily`: the Python body
contains no `raise` and no validation branch, so every call returns normally. -/
def simulate_gbm_daily_run (S0 mu sigma : ℝ) (n_days n_sim : ℕ) (dW : ℕ → ℕ → ℝ) :
    Except GBMError (List (List ℝ)) :=
  Except.ok (simulate_gbm_daily S0 mu sigma n_days n_sim dW)

/-- The spec's closed form (§4.2 step 4) for the price at 1-indexed day `t`:
`S0 * exp((μ − 0.5σ²) * t/252 + σ * W[t])`, with `Wt` the sum of the first
`t` Gaussian increments.  Stated from the spec's words, to compare with the
rows produced by `simulate_gbm_daily`. -/
def specDayPrice (S0 mu sigma Wt : ℝ) (t : ℕ) : ℝ :=
  S0 * Real.exp ((mu - 0.5 * sigma ^ 2) * (t : ℝ) / 252 + sigma * Wt)

/-- The spec's log-return sequence (§4.1): `r[i] = ln(prices[i] / prices[i-1])`
for `i = 1..n-1`, stated positionally from the spec's words. -/
def specLogReturns (prices : List ℝ) : List ℝ :=
  (List.range (prices.length - 1)).map fun i =>
    Real.log (prices.getD (i + 1) 0 / prices.getD i 0)

/-- Population standard deviation as the spec words it: square root of the
mean squared deviation, dividing by `n` rather than `n - 1`. -/
def specPopStd (xs : List ℝ) : ℝ :=
  Real.sqrt ((xs.map fun x => (x - xs.sum / xs.length) ^ 2).sum / xs.length)

/-- The spec's annualized volatility: `σ = stdDev(r) * sqrt(252)`. -/
def specSigma (prices : List ℝ) : ℝ :=
  specPopStd (specLogReturns prices) * Real.sqrt 252

/-- The spec's annualized drift: `μ = mean(r) * 252 + 0.5 * σ²`. -/
def specMu (prices : List ℝ) : ℝ :=
  (specLogReturns prices).sum / (specLogReturns prices).length * 252 +
    0.5 * specSigma prices ^ 2

end

/-! ### Helper lemmas -/

theorem one_le_of_between {n : ℕ} {x : ℝ} (h0 : 0 ≤ x) (h1 : x ≤ (n : ℝ) - 1) :
    1 ≤ n := by
  have : (1 : ℝ) ≤ (n : ℝ) := by linarith
  exact_mod_cast this

theorem getD_mem {s : List ℝ} {i : ℕ} (h : i < s.length) : s.getD i 0 ∈ s := by
  rw [List.getD_eq_getElem s 0 h]
  exact List.getElem_mem h

theorem npSort_length (xs : List ℝ) : (npSort xs).length = xs.length :=
  (List.perm_insertionSort _ xs).length_eq

theorem npSort_sorted (xs : List ℝ) : (npSort xs).Sorted (· ≤ ·) :=
  List.sorted_insertionSort _ xs

theorem npSort_mem {a : ℝ} {xs : List ℝ} : a ∈ npSort xs ↔ a ∈ xs :=
  (List.perm_insertionSort _ xs).mem_iff

theorem sorted_getD_mono {s : List ℝ} (hs : s.Sorted (· ≤ ·)) {k l : ℕ}
    (hkl : k ≤ l) (hl : l < s.length) : s.getD k 0 ≤ s.getD l 0 := by
  have hk : k < s.length := lt_of_le_of_lt hkl hl
  rw [List.getD_eq_getElem s 0 hk, List.getD_eq_getElem s 0 hl]
  have := hs.rel_get_of_le (a := ⟨k, hk⟩) (b := ⟨l, hl⟩) hkl
  simpa [List.get_eq_getElem] using this

/-- With `0 ≤ h ≤ n − 1`, the interpolated value lies between the two order
statistics it interpolates. -/
theorem interpAt_between {s : List ℝ} (hs : s.Sorted (· ≤ ·)) {h : ℝ}
    (h0 : 0 ≤ h) (h1 : h ≤ (s.length : ℝ) - 1) :
    s.getD ⌊h⌋.toNat 0 ≤ interpAt s h ∧
      interpAt s h ≤ s.getD (min (⌊h⌋.toNat + 1) (s.length - 1)) 0 := by
  have hn : 1 ≤ s.length := one_le_of_between h0 h1
  have hfl0 : (0 : ℤ) ≤ ⌊h⌋ := Int.floor_nonneg.mpr h0
  have hcast : ((⌊h⌋.toNat : ℕ) : ℝ) = ((⌊h⌋ : ℤ) : ℝ) := by
    exact_mod_cast Int.toNat_of_nonneg hfl0
  have hle : (⌊h⌋.toNat : ℝ) ≤ h := by
    calc (⌊h⌋.toNat : ℝ) = ((⌊h⌋ : ℤ) : ℝ) := hcast
    _ ≤ h := Int.floor_le h
  have hIdx : ⌊h⌋.toNat ≤ s.length - 1 := by
    have : (⌊h⌋.toNat : ℝ) ≤ ((s.length - 1 : ℕ) : ℝ) := by
      have : ((s.length - 1 : ℕ) : ℝ) = (s.length : ℝ) - 1 := by
        have : (1 : ℕ) ≤ s.length := hn
        push_cast [Nat.cast_sub this]
        ring
      linarith [hle, h1, this.ge]
    exact_mod_cast this
  have hfrac0 : 0 ≤ h - (⌊h⌋ : ℝ) := sub_nonneg.mpr (Int.floor_le h)
  have hfrac1 : h - (⌊h⌋ : ℝ) < 1 := by
    have := Int.lt_floor_add_one h
    linarith
  have hminlt : min (⌊h⌋.toNat + 1) (s.length - 1) < s.length := by omega
  have hab : s.getD ⌊h⌋.toNat 0 ≤ s.getD (min (⌊h⌋.toNat + 1) (s.length - 1)) 0 :=
    sorted_getD_mono hs (by omega) hminlt
  have hfracEq : h - ((⌊h⌋.toNat : ℕ) : ℝ) = h - (⌊h⌋ : ℝ) := by
    rw [show ((⌊h⌋.toNat : ℕ) : ℝ) = ((⌊h⌋ : ℤ) : ℝ) by exact_mod_cast hcast]
  constructor
  · unfold interpAt
    nlinarith [hab, hfrac0]
  · unfold interpAt
    nlinarith [hab, hfrac0, hfrac1]

/-- Linear-interpolation percentile position is monotone on a sorted array. -/
theorem interpAt_mono {s : List ℝ} (hs : s.Sorted (· ≤ ·)) {h1 h2 : ℝ}
    (h0 : 0 ≤ h1) (h12 : h1 ≤ h2) (hub : h2 ≤ (s.length : ℝ) - 1) :
    interpAt s h1 ≤ interpAt s h2 := by
  have h0' : 0 ≤ h2 := le_trans h0 h12
  have hub' : h1 ≤ (s.length : ℝ) - 1 := le_trans h12 hub
  have hfl1 : (0 : ℤ) ≤ ⌊h1⌋ := Int.floor_nonneg.mpr h0
  have hfl2 : (0 : ℤ) ≤ ⌊h2⌋ := Int.floor_nonneg.mpr h0'
  have hij : ⌊h1⌋.toNat ≤ ⌊h2⌋.toNat := Int.toNat_le_toNat (Int.floor_le_floor h12)
  rcases lt_or_eq_of_le hij with hlt | heq
  · have hb1 := (interpAt_between hs h0 hub').2
    have hb2 := (interpAt_between hs h0' hub).1
    have hn : 1 ≤ s.length := one_le_of_between h0' hub
    have hi2lt : ⌊h2⌋.toNat < s.length := by
      have hle2 : (⌊h2⌋.toNat : ℝ) ≤ h2 := by
        have hc : ((⌊h2⌋.toNat : ℕ) : ℝ) = ((⌊h2⌋ : ℤ) : ℝ) := by
          exact_mod_cast Int.toNat_of_nonneg hfl2
        calc (⌊h2⌋.toNat : ℝ) = ((⌊h2⌋ : ℤ) : ℝ) := hc
        _ ≤ h2 := Int.floor_le h2
      have : (⌊h2⌋.toNat : ℝ) ≤ (s.length : ℝ) - 1 := le_trans hle2 hub
      have : (⌊h2⌋.toNat : ℝ) < (s.length : ℝ) := by linarith
      exact_mod_cast this
    have hmid : s.getD (min (⌊h1⌋.toNat + 1) (s.length - 1)) 0 ≤ s.getD ⌊h2⌋.toNat 0 :=
      sorted_getD_mono hs (by omega) hi2lt
    linarith
  · have hflEq : ⌊h1⌋ = ⌊h2⌋ := by omega
    unfold interpAt
    rw [heq, hflEq]
    have hminlt : min (⌊h2⌋.toNat + 1) (s.length - 1) < s.length := by
      have hn : 1 ≤ s.length := one_le_of_between h0' hub
      omega
    have hi2 : ⌊h2⌋.toNat ≤ min (⌊h2⌋.toNat + 1) (s.length - 1) := by
      have hle2 : (⌊h2⌋.toNat : ℝ) ≤ h2 := by
        have hc : ((⌊h2⌋.toNat : ℕ) : ℝ) = ((⌊h2⌋ : ℤ) : ℝ) := by
          exact_mod_cast Int.toNat_of_nonneg hfl2
        calc (⌊h2⌋.toNat : ℝ) = ((⌊h2⌋ : ℤ) : ℝ) := hc
        _ ≤ h2 := Int.floor_le h2
      have : (⌊h2⌋.toNat : ℝ) ≤ (s.length : ℝ) - 1 := le_trans hle2 hub
      have : (⌊h2⌋.toNat : ℝ) ≤ ((s.length - 1 : ℕ) : ℝ) := by
        have h1n : (1 : ℕ) ≤ s.length := one_le_of_between h0' hub
        push_cast [Nat.cast_sub h1n]
        linarith
      have := (Nat.cast_le (α := ℝ)).mp this
      omega
    have hab : s.getD ⌊h2⌋.toNat 0 ≤ s.getD (min (⌊h2⌋.toNat + 1) (s.length - 1)) 0 :=
      sorted_getD_mono hs hi2 hminlt
    nlinarith [hab, h12]

/-- `np.median` coincides with the 50th linear-interpolation percentile
position `(n − 1) / 2` on the sorted data. -/
theorem npMedian_eq_interpAt {xs : List ℝ} (hxs : xs ≠ []) :
    npMedian xs = interpAt (npSort xs) (((xs.length : ℝ) - 1) / 2) := by
  have hn : 1 ≤ xs.length := List.length_pos.mpr hxs
  obtain ⟨m, hm⟩ : ∃ m, xs.length = m + 1 := ⟨xs.length - 1, by omega⟩
  have hlen : (npSort xs).length = m + 1 := by rw [npSort_length, hm]
  have hh : ((xs.length : ℝ) - 1) / 2 = (m : ℝ) / 2 := by
    rw [hm]; push_cast; ring
  rcases Nat.even_or_odd m with he | ho
  · obtain ⟨k, hk⟩ := he
    have hcast : ((m : ℝ) / 2) = (k : ℝ) := by rw [hk]; push_cast; ring
    have hfl : ⌊((m : ℝ) / 2)⌋ = (k : ℤ) := by
      rw [hcast]
      exact_mod_cast Int.floor_natCast k
    unfold npMedian interpAt
    rw [hh, hfl, hcast]
    have h1 : (xs.length - 1) / 2 = k := by omega
    have h2 : xs.length / 2 = k := by omega
    have h3 : ((k : ℤ)).toNat = k := by omega
    rw [h1, h2, h3]
    push_cast
    ring
  · obtain ⟨k, hk⟩ := ho
    have hfl : ⌊((m : ℝ) / 2)⌋ = (k : ℤ) := by
      rw [Int.floor_eq_iff]
      subst hk
      push_cast
      constructor <;> [linarith; linarith]
    unfold npMedian interpAt
    rw [hh, hfl]
    have h1 : (xs.length - 1) / 2 = k := by omega
    have h2 : xs.length / 2 = k + 1 := by omega
    have h3 : ((k : ℤ)).toNat = k := by omega
    have h4 : min (k + 1) ((npSort xs).length - 1) = k + 1 := by
      rw [hlen]; omega
    rw [h1, h2, h3, h4]
    have h5 : (m : ℝ) / 2 - ((k : ℤ) : ℝ) = 1 / 2 := by
      subst hk; push_cast; ring
    rw [h5]
    ring

/-- On a list of strictly positive entries, linear interpolation at an
in-range position is strictly positive. -/
theorem interpAt_pos {s : List ℝ} (hpos : ∀ x ∈ s, 0 < x) {h : ℝ}
    (h0 : 0 ≤ h) (h1 : h ≤ (s.length : ℝ) - 1) : 0 < interpAt s h := by
  have hn : 1 ≤ s.length := one_le_of_between h0 h1
  have hfl0 : (0 : ℤ) ≤ ⌊h⌋ := Int.floor_nonneg.mpr h0
  have hle : (⌊h⌋.toNat : ℝ) ≤ h := by
    have hc : ((⌊h⌋.toNat : ℕ) : ℝ) = ((⌊h⌋ : ℤ) : ℝ) := by
      exact_mod_cast Int.toNat_of_nonneg hfl0
    calc (⌊h⌋.toNat : ℝ) = ((⌊h⌋ : ℤ) : ℝ) := hc
    _ ≤ h := Int.floor_le h
  have hIdx : ⌊h⌋.toNat < s.length := by
    have : (⌊h⌋.toNat : ℝ) < (s.length : ℝ) := by linarith
    exact_mod_cast this
  have hminlt : min (⌊h⌋.toNat + 1) (s.length - 1) < s.length := by omega
  have ha : 0 < s.getD ⌊h⌋.toNat 0 := hpos _ (getD_mem hIdx)
  have hb : 0 < s.getD (min (⌊h⌋.toNat + 1) (s.length - 1)) 0 := hpos _ (getD_mem hminlt)
  have hfrac0 : 0 ≤ h - (⌊h⌋ : ℝ) := sub_nonneg.mpr (Int.floor_le h)
  have hfrac1 : h - (⌊h⌋ : ℝ) < 1 := by
    have := Int.lt_floor_add_one h
    linarith
  unfold interpAt
  nlinarith [ha, hb, hfrac0, hfrac1]

/-! ### Scaling lemmas (positive rescaling commutes with the reduction) -/

theorem getD_map_mul (k : ℝ) (s : List ℝ) (i : ℕ) :
    (s.map fun x => k * x).getD i 0 = k * s.getD i 0 := by
  rcases lt_or_le i s.length with hlt | hge
  · have hlt2 : i < (s.map fun x => k * x).length := by simpa using hlt
    rw [List.getD_eq_getElem _ 0 hlt2, List.getD_eq_getElem _ 0 hlt, List.getElem_map]
  · rw [List.getD_eq_default _ 0 (by simpa using hge), List.getD_eq_default _ 0 hge, mul_zero]

theorem orderedInsert_map_mul {k : ℝ} (hk : 0 < k) (a : ℝ) (l : List ℝ) :
    List.orderedInsert (· ≤ ·) (k * a) (l.map fun x => k * x) =
      (List.orderedInsert (· ≤ ·) a l).map fun x => k * x := by
  induction l with
  | nil => simp
  | cons b t ih =>
      by_cases hab : a ≤ b
      · have hkab : k * a ≤ k * b := (mul_le_mul_left hk).mpr hab
        simp [List.orderedInsert, hab, hkab]
      · have hkab : ¬ k * a ≤ k * b := fun hc => hab ((mul_le_mul_left hk).mp hc)
        simp [List.orderedInsert, hab, hkab, ih]

theorem npSort_map_mul {k : ℝ} (hk : 0 < k) (xs : List ℝ) :
    npSort (xs.map fun x => k * x) = (npSort xs).map fun x => k * x := by
  unfold npSort
  induction xs with
  | nil => simp
  | cons a t ih => simp [List.insertionSort, ih, orderedInsert_map_mul hk]

theorem interpAt_map_mul (k : ℝ) (s : List ℝ) (h : ℝ) :
    interpAt (s.map fun x => k * x) h = k * interpAt s h := by
  unfold interpAt
  rw [List.length_map, getD_map_mul, getD_map_mul]
  ring

theorem npPercentile_map_mul {k : ℝ} (hk : 0 < k) (q : ℝ) (xs : List ℝ) :
    npPercentile q (xs.map fun x => k * x) = k * npPercentile q xs := by
  unfold npPercentile
  rw [List.length_map, npSort_map_mul hk, interpAt_map_mul]

theorem npMedian_map_mul {k : ℝ} (hk : 0 < k) (xs : List ℝ) :
    npMedian (xs.map fun x => k * x) = k * npMedian xs := by
  unfold npMedian
  rw [List.length_map, npSort_map_mul hk, getD_map_mul, getD_map_mul]
  ring

theorem S_entry_smul (k S0 mu sigma : ℝ) (dW : ℕ → ℕ → ℝ) (i j : ℕ) :
    S_entry (k * S0) mu sigma dW i j = k * S_entry S0 mu sigma dW i j := by
  unfold S_entry
  ring

theorem simulate_smul (k S0 mu sigma : ℝ) (n_days n_sim : ℕ) (dW : ℕ → ℕ → ℝ) :
    simulate_gbm_daily (k * S0) mu sigma n_days n_sim dW =
      (simulate_gbm_daily S0 mu sigma n_days n_sim dW).map
        (fun row => row.map fun x => k * x) := by
  unfold simulate_gbm_daily
  simp [List.map_map, Function.comp_def, S_entry_smul]

theorem zipWith_logReturns_eq (prices : List ℝ) :
    List.zipWith (fun a b => Real.log (a / b)) (prices.drop 1) prices.dropLast =
      specLogReturns prices := by
  apply List.ext_get
  · simp [specLogReturns, List.length_dropLast, List.length_drop]
  · intro n h1 h2
    have hlen : n < prices.length - 1 := by
      simpa [List.length_dropLast, List.length_drop] using h1
    have hn1 : n + 1 < prices.length := by omega
    have hn : n < prices.length := by omega
    simp only [List.get_eq_getElem, List.getElem_zipWith, List.getElem_drop,
      List.getElem_dropLast, specLogReturns, List.getElem_map, List.getElem_range]
    rw [List.getD_eq_getElem prices 0 hn1, List.getD_eq_getElem prices 0 hn]
    have h1n : (1 + n) = (n + 1) := Nat.add_comm 1 n
    simp [h1n]

/-! ### Claim theorems -/

/-- C1: the claim says the simulated price at forecast day `t` (1-indexed)
equals `S0 * exp((μ − 0.5σ²) * t/252 + σ * W[t])`.  The code computes the
drift multiplier from `t = np.arange(n_days)` (0-indexed) while the Brownian
term `W` already sums `t` increments: at `S0 = 1`, `μ = 252`, `σ = 0`,
`horizonDays = sampleCount = 1` and all draws zero, the code's day-1 price
is `1`, while the claimed closed form gives `exp 1 ≠ 1`. -/
theorem day_one_price_off_by_one :
    ((simulate_gbm_daily 1 252 0 1 1 fun _ _ => 0).getD 0 []).getD 0 0 = 1 ∧
      specDayPrice 1 252 0 (Wcum (fun _ _ => 0) 0 0) 1 = Real.exp 1 ∧
      Real.exp 1 ≠ 1 := by
  refine ⟨?_, ?_, ?_⟩
  · simp [simulate_gbm_daily, S_entry, Wcum]
  · simp [specDayPrice, Wcum]
  · simp [Real.exp_eq_one_iff]

/-- C2: on any series of at least two strictly positive prices, the estimator
returns exactly the spec's formulas: `σ` is the population standard deviation
(divide by `n`, not `n − 1`) of the log returns `ln(prices[i]/prices[i−1])`
scaled by `√252`, and `μ` is the mean log return times 252 plus `0.5σ²`. -/
theorem estimator_matches_spec_formulas (prices : List ℝ)
    (hlen : 2 ≤ prices.length) (hpos : ∀ x ∈ prices, 0 < x) :
    estimate_gbm_parameters prices = (specMu prices, specSigma prices) := by
  unfold estimate_gbm_parameters
  rw [zipWith_logReturns_eq]
  simp only [specMu, specSigma, npMean, npStd, specPopStd, List.length_map]

theorem estimator_matches_spec_formulas_witness :
    estimate_gbm_parameters [1, 2, 4] = (specMu [1, 2, 4], specSigma [1, 2, 4]) :=
  estimator_matches_spec_formulas [1, 2, 4] (by norm_num)
    (by intro x hx; fin_cases hx <;> norm_num)

/-- C3: the claim says that with `σ = 0`, `S0 = 100`, `μ = 0.08`,
`horizonDays = 2` the band value at index 0 is `100 * exp(0.08 * 1/252)`.
Because the code's drift multiplier is the 0-based `np.arange` index, the
computed median at index 0 is exactly `100`, and
`100 * exp(0.08 * 1/252) ≠ 100`. -/
theorem zero_vol_band_off_by_one :
    (bandMedian (simulate_gbm_daily 100 0.08 0 2 1 fun _ _ => 0)).getD 0 0 = 100 ∧
      (100 : ℝ) * Real.exp (0.08 * 1 / 252) ≠ 100 := by
  constructor
  · simp [bandMedian, simulate_gbm_daily, List.range_succ, S_entry, Wcum, npMedian, npSort,
      List.insertionSort, List.orderedInsert]
  · intro hc
    have h1 : Real.exp (0.08 * 1 / 252) = 1 := by
      field_simp at hc
      linarith
    rw [Real.exp_eq_one_iff] at h1
    norm_num at h1

/-- C4 (counterexample): the claim says the estimator raises
`InvalidInputError` on a series containing a non-positive value and never
returns a result for it.  On the input `[1, -1]` the source function has no
validation branch and returns normally. -/
theorem estimator_no_validation_cex :
    ((-1 : ℝ) ≤ 0) ∧
      estimate_gbm_parameters_run [1, -1] ≠ Except.error GBMError.invalidInput ∧
      ∃ p, estimate_gbm_parameters_run [1, -1] = Except.ok p := by
  refine ⟨by norm_num, ?_, ⟨estimate_gbm_parameters [1, -1], rfl⟩⟩
  intro hc
  exact Except.noConfusion hc

/-- C4 (amended): `estimate_gbm_parameters` performs no input validation at
all: every call — including empty series, single-element series, and series
with non-positive prices — returns a `(μ, σ)` result and never raises
`InvalidInputError`. -/
theorem estimator_never_raises (prices : List ℝ) :
    estimate_gbm_parameters_run prices = Except.ok (estimate_gbm_parameters prices) := rfl

/-- C5 (counterexample): the claim says the simulator raises
`InvalidInputError` when `S0 ≤ 0` or `σ < 0` and never returns a grid.  With
`S0 = -5` and `σ = -1` the source function has no validation branch and
returns normally. -/
theorem simulator_no_validation_cex :
    ((-5 : ℝ) ≤ 0) ∧ ((-1 : ℝ) < 0) ∧
      simulate_gbm_daily_run (-5) 0 (-1) 1 1 (fun _ _ => 0) ≠
        Except.error GBMError.invalidInput ∧
      ∃ g, simulate_gbm_daily_run (-5) 0 (-1) 1 1 (fun _ _ => 0) = Except.ok g := by
  refine ⟨by norm_num, by norm_num, ?_,
    ⟨simulate_gbm_daily (-5) 0 (-1) 1 1 (fun _ _ => 0), rfl⟩⟩
  intro hc
  exact Except.noConfusion hc

/-- C5 (amended): `simulate_gbm_daily` performs no input validation at all:
every call — for any real `S0` and `σ`, including non-positive `S0` and
negative `σ` — returns the simulated grid and never raises
`InvalidInputError`. -/
theorem simulator_never_raises (S0 mu sigma : ℝ) (n_days n_sim : ℕ) (dW : ℕ → ℕ → ℝ) :
    simulate_gbm_daily_run S0 mu sigma n_days n_sim dW =
      Except.ok (simulate_gbm_daily S0 mu sigma n_days n_sim dW) := rfl

/-- C8: the ForecastBand is a pure function of the seed-determined draw
stream and the numeric inputs: two runs with the same seeded source and the
same `(S0, μ, σ, horizonDays, sampleCount)` produce identical output. -/
theorem band_deterministic (source : ℕ → ℕ → ℕ → ℝ) (seed : ℕ) (S0 mu sigma : ℝ)
    (n_days n_sim : ℕ) :
    predictBand S0 mu sigma n_days n_sim (source seed) =
      predictBand S0 mu sigma n_days n_sim (source seed) := rfl

/-- C6: for every valid input and every draw stream, at every day index the
band produced by the percentile reduction satisfies
`lowerBound[i] ≤ median[i] ≤ upperBound[i]`. -/
theorem band_ordering (S0 mu sigma : ℝ) (n_days n_sim : ℕ) (dW : ℕ → ℕ → ℝ)
    (hS0 : 0 < S0) (hsig : 0 ≤ sigma) (hsim : 1 ≤ n_sim) (i : ℕ) (hi : i < n_days) :
    (bandLower (simulate_gbm_daily S0 mu sigma n_days n_sim dW)).getD i 0 ≤
        (bandMedian (simulate_gbm_daily S0 mu sigma n_days n_sim dW)).getD i 0 ∧
      (bandMedian (simulate_gbm_daily S0 mu sigma n_days n_sim dW)).getD i 0 ≤
        (bandUpper (simulate_gbm_daily S0 mu sigma n_days n_sim dW)).getD i 0 := by
  set row : List ℝ := (List.range n_sim).map fun j => S_entry S0 mu sigma dW i j with hrow
  have hgl : (simulate_gbm_daily S0 mu sigma n_days n_sim dW).length = n_days := by
    simp [simulate_gbm_daily]
  have hgi : i < (simulate_gbm_daily S0 mu sigma n_days n_sim dW).length := by omega
  have hgrid : (simulate_gbm_daily S0 mu sigma n_days n_sim dW)[i] = row := by
    simp [simulate_gbm_daily, hrow, hi]
  have hrl : row.length = n_sim := by simp [hrow]
  have hne : row ≠ [] := by
    intro hc
    rw [hc] at hrl
    simp at hrl
    omega
  have hLow : (bandLower (simulate_gbm_daily S0 mu sigma n_days n_sim dW)).getD i 0 =
      npPercentile 2.5 row := by
    have hlt : i < (bandLower (simulate_gbm_daily S0 mu sigma n_days n_sim dW)).length := by
      simpa [bandLower] using hgi
    rw [List.getD_eq_getElem _ 0 hlt]
    simp [bandLower, hgrid]
  have hMed : (bandMedian (simulate_gbm_daily S0 mu sigma n_days n_sim dW)).getD i 0 =
      npMedian row := by
    have hlt : i < (bandMedian (simulate_gbm_daily S0 mu sigma n_days n_sim dW)).length := by
      simpa [bandMedian] using hgi
    rw [List.getD_eq_getElem _ 0 hlt]
    simp [bandMedian, hgrid]
  have hUp : (bandUpper (simulate_gbm_daily S0 mu sigma n_days n_sim dW)).getD i 0 =
      npPercentile 97.5 row := by
    have hlt : i < (bandUpper (simulate_gbm_daily S0 mu sigma n_days n_sim dW)).length := by
      simpa [bandUpper] using hgi
    rw [List.getD_eq_getElem _ 0 hlt]
    simp [bandUpper, hgrid]
  rw [hLow, hMed, hUp]
  have hsorted := npSort_sorted row
  have hslen : (npSort row).length = row.length := npSort_length row
  have hN1 : (1 : ℝ) ≤ (row.length : ℝ) := by
    have : 1 ≤ row.length := by omega
    exact_mod_cast this
  have hNn : (0 : ℝ) ≤ (row.length : ℝ) - 1 := by linarith
  have hmed2 : npMedian row = interpAt (npSort row) (((row.length : ℝ) - 1) / 2) :=
    npMedian_eq_interpAt hne
  constructor
  · rw [hmed2]
    unfold npPercentile
    apply interpAt_mono hsorted
    · nlinarith
    · nlinarith
    · rw [hslen]
      linarith
  · rw [hmed2]
    unfold npPercentile
    apply interpAt_mono hsorted
    · linarith
    · nlinarith
    · rw [hslen]
      nlinarith

theorem band_ordering_witness :
    (bandLower (simulate_gbm_daily 100 0 0 1 1 fun _ _ => 0)).getD 0 0 ≤
        (bandMedian (simulate_gbm_daily 100 0 0 1 1 fun _ _ => 0)).getD 0 0 ∧
      (bandMedian (simulate_gbm_daily 100 0 0 1 1 fun _ _ => 0)).getD 0 0 ≤
        (bandUpper (simulate_gbm_daily 100 0 0 1 1 fun _ _ => 0)).getD 0 0 :=
  band_ordering 100 0 0 1 1 (fun _ _ => 0) (by norm_num) le_rfl le_rfl 0 Nat.one_pos

/-- C7: with identical draws and fixed `μ`, `σ`, scaling `S0` by a positive
constant `k` scales every median, lower and upper band value by `k`. -/
theorem band_scale_invariance (k S0 mu sigma : ℝ) (n_days n_sim : ℕ) (dW : ℕ → ℕ → ℝ)
    (hk : 0 < k) (hS0 : 0 < S0) (hsig : 0 ≤ sigma) :
    bandMedian (simulate_gbm_daily (k * S0) mu sigma n_days n_sim dW) =
        (bandMedian (simulate_gbm_daily S0 mu sigma n_days n_sim dW)).map (fun x => k * x) ∧
      bandLower (simulate_gbm_daily (k * S0) mu sigma n_days n_sim dW) =
        (bandLower (simulate_gbm_daily S0 mu sigma n_days n_sim dW)).map (fun x => k * x) ∧
      bandUpper (simulate_gbm_daily (k * S0) mu sigma n_days n_sim dW) =
        (bandUpper (simulate_gbm_daily S0 mu sigma n_days n_sim dW)).map (fun x => k * x) := by
  rw [simulate_smul]
  refine ⟨?_, ?_, ?_⟩ <;>
    simp [bandMedian, bandLower, bandUpper, List.map_map, Function.comp_def,
      npMedian_map_mul hk, npPercentile_map_mul hk]

theorem band_scale_invariance_witness :
    bandMedian (simulate_gbm_daily (2 * 100) 0 0 1 1 fun _ _ => 0) =
        (bandMedian (simulate_gbm_daily 100 0 0 1 1 fun _ _ => 0)).map (fun x => 2 * x) ∧
      bandLower (simulate_gbm_daily (2 * 100) 0 0 1 1 fun _ _ => 0) =
        (bandLower (simulate_gbm_daily 100 0 0 1 1 fun _ _ => 0)).map (fun x => 2 * x) ∧
      bandUpper (simulate_gbm_daily (2 * 100) 0 0 1 1 fun _ _ => 0) =
        (bandUpper (simulate_gbm_daily 100 0 0 1 1 fun _ _ => 0)).map (fun x => 2 * x) :=
  band_scale_invariance 2 100 0 0 1 1 (fun _ _ => 0) (by norm_num) (by norm_num) le_rfl

/-- C9: with `horizonDays = 1` and `sampleCount = 1` the reduction is total
and produces a well-formed band whose three series are each the single-element
list holding the one simulated price. -/
theorem boundary_single_element_band (S0 mu sigma : ℝ) (dW : ℕ → ℕ → ℝ)
    (hS0 : 0 < S0) (hsig : 0 ≤ sigma) :
    bandMedian (simulate_gbm_daily S0 mu sigma 1 1 dW) = [S_entry S0 mu sigma dW 0 0] ∧
      bandLower (simulate_gbm_daily S0 mu sigma 1 1 dW) = [S_entry S0 mu sigma dW 0 0] ∧
      bandUpper (simulate_gbm_daily S0 mu sigma 1 1 dW) = [S_entry S0 mu sigma dW 0 0] := by
  have hgrid : simulate_gbm_daily S0 mu sigma 1 1 dW = [[S_entry S0 mu sigma dW 0 0]] := by
    simp [simulate_gbm_daily, List.range_succ]
  have hmed1 : npMedian [S_entry S0 mu sigma dW 0 0] = S_entry S0 mu sigma dW 0 0 := by
    simp [npMedian, npSort, List.insertionSort, List.orderedInsert]
  have hperc1 : ∀ q : ℝ, npPercentile q [S_entry S0 mu sigma dW 0 0] =
      S_entry S0 mu sigma dW 0 0 := by
    intro q
    simp [npPercentile, npSort, List.insertionSort, List.orderedInsert, interpAt]
  rw [hgrid]
  refine ⟨?_, ?_, ?_⟩
  · simp [bandMedian, hmed1]
  · simp [bandLower, hperc1]
  · simp [bandUpper, hperc1]

theorem boundary_single_element_band_witness :
    bandMedian (simulate_gbm_daily 100 0 0 1 1 fun _ _ => 0) =
        [S_entry 100 0 0 (fun _ _ => 0) 0 0] ∧
      bandLower (simulate_gbm_daily 100 0 0 1 1 fun _ _ => 0) =
        [S_entry 100 0 0 (fun _ _ => 0) 0 0] ∧
      bandUpper (simulate_gbm_daily 100 0 0 1 1 fun _ _ => 0) =
        [S_entry 100 0 0 (fun _ _ => 0) 0 0] :=
  boundary_single_element_band 100 0 0 (fun _ _ => 0) (by norm_num) le_rfl

/-- C10: for positive `S0`, any `μ`, `σ`, and at least one day and one sample,
every grid entry is strictly positive (it is `S0` times an exponential), and
hence every lower, median and upper band value is strictly positive. -/
theorem band_positive (S0 mu sigma : ℝ) (n_days n_sim : ℕ) (dW : ℕ → ℕ → ℝ)
    (hS0 : 0 < S0) (hday : 1 ≤ n_days) (hsim : 1 ≤ n_sim) :
    (∀ i j, i < n_days → j < n_sim →
        0 < ((simulate_gbm_daily S0 mu sigma n_days n_sim dW).getD i []).getD j 0) ∧
      ∀ i, i < n_days →
        0 < (bandLower (simulate_gbm_daily S0 mu sigma n_days n_sim dW)).getD i 0 ∧
          0 < (bandMedian (simulate_gbm_daily S0 mu sigma n_days n_sim dW)).getD i 0 ∧
          0 < (bandUpper (simulate_gbm_daily S0 mu sigma n_days n_sim dW)).getD i 0 := by
  have hentry : ∀ i j, 0 < S_entry S0 mu sigma dW i j := fun i j =>
    mul_pos hS0 (Real.exp_pos _)
  have hgl : (simulate_gbm_daily S0 mu sigma n_days n_sim dW).length = n_days := by
    simp [simulate_gbm_daily]
  constructor
  · intro i j hi hj
    have hgi : i < (simulate_gbm_daily S0 mu sigma n_days n_sim dW).length := by omega
    rw [List.getD_eq_getElem _ [] hgi]
    have hgrid : (simulate_gbm_daily S0 mu sigma n_days n_sim dW)[i] =
        (List.range n_sim).map fun j => S_entry S0 mu sigma dW i j := by
      simp [simulate_gbm_daily, hi]
    rw [hgrid]
    have hjl : j < ((List.range n_sim).map fun j => S_entry S0 mu sigma dW i j).length := by
      simpa using hj
    rw [List.getD_eq_getElem _ 0 hjl]
    simpa using hentry i j
  · intro i hi
    set row : List ℝ := (List.range n_sim).map fun j => S_entry S0 mu sigma dW i j with hrow
    have hgi : i < (simulate_gbm_daily S0 mu sigma n_days n_sim dW).length := by omega
    have hgrid : (simulate_gbm_daily S0 mu sigma n_days n_sim dW)[i] = row := by
      simp [simulate_gbm_daily, hrow, hi]
    have hrl : row.length = n_sim := by simp [hrow]
    have hposrow : ∀ x ∈ row, 0 < x := by
      intro x hx
      rw [hrow] at hx
      obtain ⟨j, hj, rfl⟩ := List.mem_map.mp hx
      exact hentry i j
    have hpossort : ∀ x ∈ npSort row, 0 < x := fun x hx => hposrow x (npSort_mem.mp hx)
    have hslen : (npSort row).length = row.length := npSort_length row
    have hN1 : (1 : ℝ) ≤ (row.length : ℝ) := by
      have : 1 ≤ row.length := by omega
      exact_mod_cast this
    have hne : row ≠ [] := by
      intro hc
      rw [hc] at hrl
      simp at hrl
      omega
    have hLow : (bandLower (simulate_gbm_daily S0 mu sigma n_days n_sim dW)).getD i 0 =
        npPercentile 2.5 row := by
      have hlt : i < (bandLower (simulate_gbm_daily S0 mu sigma n_days n_sim dW)).length := by
        simpa [bandLower] using hgi
      rw [List.getD_eq_getElem _ 0 hlt]
      simp [bandLower, hgrid]
    have hMed : (bandMedian (simulate_gbm_daily S0 mu sigma n_days n_sim dW)).getD i 0 =
        npMedian row := by
      have hlt : i < (bandMedian (simulate_gbm_daily S0 mu sigma n_days n_sim dW)).length := by
        simpa [bandMedian] using hgi
      rw [List.getD_eq_getElem _ 0 hlt]
      simp [bandMedian, hgrid]
    have hUp : (bandUpper (simulate_gbm_daily S0 mu sigma n_days n_sim dW)).getD i 0 =
        npPercentile 97.5 row := by
      have hlt : i < (bandUpper (simulate_gbm_daily S0 mu sigma n_days n_sim dW)).length := by
        simpa [bandUpper] using hgi
      rw [List.getD_eq_getElem _ 0 hlt]
      simp [bandUpper, hgrid]
    rw [hLow, hMed, hUp]
    refine ⟨?_, ?_, ?_⟩
    · unfold npPercentile
      apply interpAt_pos hpossort
      · nlinarith
      · rw [hslen]
        nlinarith
    · rw [npMedian_eq_interpAt hne]
      apply interpAt_pos hpossort
      · linarith
      · rw [hslen]
        linarith
    · unfold npPercentile
      apply interpAt_pos hpossort
      · nlinarith
      · rw [hslen]
        nlinarith

theorem band_positive_witness :
    (∀ i j, i < 1 → j < 1 →
        0 < ((simulate_gbm_daily 100 0 0 1 1 fun _ _ => 0).getD i []).getD j 0) ∧
      ∀ i, i < 1 →
        0 < (bandLower (simulate_gbm_daily 100 0 0 1 1 fun _ _ => 0)).getD i 0 ∧
          0 < (bandMedian (simulate_gbm_daily 100 0 0 1 1 fun _ _ => 0)).getD i 0 ∧
          0 < (bandUpper (simulate_gbm_daily 100 0 0 1 1 fun _ _ => 0)).getD i 0 :=
  band_positive 100 0 0 1 1 (fun _ _ => 0) (by norm_num) le_rfl le_rfl

end StockPredictor
